import Mathlib

/-!
# RailStandardAI — verification of the specification against the source

Shallow embedding of the RailStandardAI browser application (React / TypeScript):
document ingestion (`processFile`, `handleFileUpload`), PDF text extraction
(`extractTextFromPdf`), the local IndexedDB-backed store (`storageService.ts`),
citation resolution (`handleCitationClick`), the ask/answer conversation flow
(`handleAsk`), and the viewer overlay's geometry, page navigation and render
cancellation (`ClauseModal`).

JavaScript strings are modelled as `List Char` (one entry per code point; for
the ASCII data these programs manipulate this coincides with UTF-16 units), so
that every string operation is structurally recursive and evaluates inside the
kernel.  Machine integers are modelled as `Nat` / `Int`; pixel geometry (JS
doubles combined only through `Math.min` / `Math.max`, `+` and the constant
factor 0.9) is modelled over `ℚ`; fallible code returns `Except`.
-/

namespace RailStandardAI

/-- A JavaScript string, as its sequence of characters. -/
abbrev Str := List Char

/-- Embed a Lean string literal as a model string. -/
def jsStr (s : String) : Str := s.data

/-- `s.toLowerCase()`. -/
def strLower (s : Str) : Str := s.map Char.toLower

/-- `s.trim()`: strip leading and trailing whitespace. -/
def strTrim (s : Str) : Str :=
  ((s.dropWhile Char.isWhitespace).reverse.dropWhile Char.isWhitespace).reverse

/-- `s.endsWith(suffix)`. -/
def strEndsWith (s suffix : Str) : Bool := suffix.reverse.isPrefixOf s.reverse

/-- `hay.includes(needle)`: substring test. -/
def strIncludes (needle : Str) : Str → Bool
  | [] => needle.isEmpty
  | c :: t => needle.isPrefixOf (c :: t) || strIncludes needle t

/-- `s.replace(/\.pdf$/i, '')` applied to an already-lowercased string:
strip one trailing `".pdf"`. -/
def stripPdfExt (s : Str) : Str :=
  if strEndsWith s (jsStr ".pdf") then s.take (s.length - 4) else s

/-- A stored document record (`RailDocument` in `types.ts`): identifier, display
name, extracted text, byte size.  The raw PDF bytes are irrelevant to every
property proved here and are omitted from the record. -/
structure RailDocument where
  id : Str
  name : Str
  content : Str
  size : Nat
  deriving Repr, DecidableEq

/-- A citation returned by the remote query (`Citation` in `types.ts`).
`page` is `none` when the field is absent. -/
structure Citation where
  standard : Str
  clause : Str
  page : Option Int
  deriving Repr, DecidableEq

/-- Message role: exactly `user` or `assistant`. -/
inductive Role where
  | user
  | assistant
  deriving Repr, DecidableEq

/-- A chat message record (`ChatMessage` in `types.ts`).  The timestamp is the
epoch-milliseconds value `new Date(...).getTime()`. -/
structure ChatMessage where
  id : Str
  role : Role
  text : Str
  citations : Option (List Citation)
  timestamp : Nat
  deriving Repr, DecidableEq

/-! ## Citation resolution (`handleCitationClick`, App.tsx lines 259–292)

```
const target = citation.standard.toLowerCase().trim();
const targetNoExt = target.replace(/\.pdf$/i, '');
let doc = documents.find(d => {
  const docName = d.name.toLowerCase();
  const docNameNoExt = docName.replace(/\.pdf$/i, '');
  return docName === target || docNameNoExt === targetNoExt;
});
if (!doc) {
  const candidates = documents.filter(d => {
    const docNameNoExt = d.name.toLowerCase().replace(/\.pdf$/i, '');
    return docNameNoExt.includes(targetNoExt) || targetNoExt.includes(docNameNoExt);
  });
  if (candidates.length > 0) {
    candidates.sort((a, b) =>
      Math.abs(a.name.length - citation.standard.length) -
      Math.abs(b.name.length - citation.standard.length));
    doc = candidates[0];
  }
}
```
-/

/-- First-pass (exact) predicate of `handleCitationClick`. -/
def citationExactPred (target targetNoExt : Str) (d : RailDocument) : Bool :=
  let docName := strLower d.name
  let docNameNoExt := stripPdfExt docName
  docName == target || docNameNoExt == targetNoExt

/-- Second-pass (fuzzy) candidate predicate of `handleCitationClick`. -/
def citationFuzzyPred (targetNoExt : Str) (d : RailDocument) : Bool :=
  let docNameNoExt := stripPdfExt (strLower d.name)
  strIncludes targetNoExt docNameNoExt || strIncludes docNameNoExt targetNoExt

/-- `Math.abs(d.name.length - citation.standard.length)`. -/
def nameDist (std : Str) (d : RailDocument) : Nat :=
  ((d.name.length : Int) - (std.length : Int)).natAbs

/-- `candidates.sort(byDistance)[0]`.  `Array.prototype.sort` is stable, so the
head of the sorted array is the first candidate attaining the minimal
distance; we compute that element directly. -/
def pickClosest (std : Str) : List RailDocument → Option RailDocument
  | [] => none
  | d :: ds =>
      some (ds.foldl (fun best x => if nameDist std x < nameDist std best then x else best) d)

/-- Document lookup of `handleCitationClick`: exact pass, then fuzzy pass. -/
def resolveCitationDoc (std : Str) (docs : List RailDocument) : Option RailDocument :=
  let target := strTrim (strLower std)
  let targetNoExt := stripPdfExt target
  match docs.find? (citationExactPred target targetNoExt) with
  | some d => some d
  | none => pickClosest std (docs.filter (citationFuzzyPred targetNoExt))

/-- Outcome of a citation click: either the not-found error message is set, or
the viewer overlay is opened (`setActiveClause`). -/
inductive ClickResult where
  | notFound (message : Str)
  | openClause (standardName : Str) (clause : Str) (page : Int)
  deriving Repr, DecidableEq

/-- `Math.max(1, citation.page || 1)`.  In JS an absent field and the number 0
are falsy, so `citation.page || 1` is 1 exactly when the field is absent or
zero; a negative page is truthy and is clamped by the outer `Math.max`. -/
def defaultedPage (page : Option Int) : Int :=
  max 1 (match page with
         | none => 1
         | some p => if p = 0 then 1 else p)

/-- `handleCitationClick` (App.tsx): resolve the standard name; on failure set
the not-found error, on success open the overlay at the defaulted page. -/
def handleCitationClick (cit : Citation) (docs : List RailDocument) : ClickResult :=
  match resolveCitationDoc cit.standard docs with
  | none => .notFound (jsStr "Standard \"" ++ cit.standard ++
      jsStr "\" not found in your local library.")
  | some d => .openClause d.name cit.clause (defaultedPage cit.page)

/-! ## Viewer overlay geometry (`ClauseModal`, src/unnamed/part_000)

The initial-size effect computes
`w = Math.min(window.innerWidth * 0.9, 1000)`,
`h = Math.min(window.innerHeight * 0.9, 850)`; the resize handler computes
`width = Math.max(400, sizeStart.w + deltaX)`,
`height = Math.max(300, sizeStart.h + deltaY)`. -/

/-- Size chosen by the `ClauseModal` on open, from the viewport dimensions. -/
def initialSize (vw vh : ℚ) : ℚ × ℚ :=
  (min (vw * (9 / 10)) 1000, min (vh * (9 / 10)) 850)

/-- Size produced by one resize mouse-move from the size at resize-start and the
pointer delta. -/
def resizeSize (startW startH dx dy : ℚ) : ℚ × ℚ :=
  (max 400 (startW + dx), max 300 (startH + dy))

/-! ## Page navigation (`ClauseModal`) -/

/-- Previous-page button handler: `setCurrentPage(prev => Math.max(1, prev - 1))`. -/
def prevPageClick (p : Int) : Int := max 1 (p - 1)

/-- Next-page button handler: `setCurrentPage(prev => Math.min(totalPages, prev + 1))`. -/
def nextPageClick (total p : Int) : Int := min total (p + 1)

/-- Previous-page button disabled condition: `currentPage <= 1 || loading`. -/
def prevDisabled (p : Int) (loading : Bool) : Bool := decide (p ≤ 1) || loading

/-- Next-page button disabled condition: `currentPage >= totalPages || loading`. -/
def nextDisabled (total p : Int) (loading : Bool) : Bool := decide (p ≥ total) || loading

/-- Clamp applied by `renderPage` before requesting a page:
`Math.max(1, Math.min(num, pdfDocRef.current.numPages))`. -/
def clampRenderPage (numPages num : Int) : Int := max 1 (min num numPages)

/-- Clamp applied by `loadPdf` to the initial page:
`Math.max(1, Math.min(initialPage, pdf.numPages))`. -/
def clampInitialPage (numPages initialPage : Int) : Int :=
  max 1 (min initialPage numPages)

/-! ## Normalisation views of citation resolution

`normalizeDocName` / `normalizeCitation` name the two normalisations the
source actually performs; `resolveCitationSpec` follows the claim's words
(trim on *both* sides) and exists only to be compared with
`resolveCitationDoc`, the embedding of the source. -/

/-- Normalisation the source applies to a stored document's name in
`handleCitationClick`: lowercase, then strip a trailing `".pdf"` — the source
does **not** trim document names. -/
def normalizeDocName (s : Str) : Str := stripPdfExt (strLower s)

/-- Normalisation the source applies to the citation's standard name:
lowercase, trim, then strip a trailing `".pdf"`. -/
def normalizeCitation (s : Str) : Str := stripPdfExt (strTrim (strLower s))

/-- Resolver following the claim's words: *both* sides are normalised by
lowercase, trim, and stripping a trailing `".pdf"`; exact pass then fuzzy
pass with the closest-original-length tie-break. -/
def resolveCitationSpec (std : Str) (docs : List RailDocument) : Option RailDocument :=
  let t := normalizeCitation std
  match docs.find? (fun d => normalizeCitation d.name == t) with
  | some d => some d
  | none =>
      pickClosest std (docs.filter (fun d =>
        strIncludes t (normalizeCitation d.name) || strIncludes (normalizeCitation d.name) t))

/-! ## PDF text extraction (`extractTextFromPdf`, src/unnamed/part_001) and
file ingestion (`processFile` / `handleFileUpload`, App.tsx)

A PDF is modelled as pdf.js presents it to `extractTextFromPdf`: either
`getDocument` rejects (corrupt/unreadable input) or it yields a list of
per-page text-extraction outcomes (`getPage`/`getTextContent` can fail per
page, caught by the inner `try`). -/

/-- Decimal digits of a `Nat` (JS template-literal rendering of a number).
Fuel-based so that it evaluates by kernel reduction; `natToStr` always
supplies enough fuel. -/
def natDigitsAux : Nat → Nat → Str
  | 0, _ => []
  | fuel + 1, n =>
      if n < 10 then [Char.ofNat (48 + n)]
      else natDigitsAux fuel (n / 10) ++ [Char.ofNat (48 + n % 10)]

/-- Decimal rendering of a `Nat` as a model string. -/
def natToStr (n : Nat) : Str := natDigitsAux (n + 1) n

deriving instance DecidableEq for Except

/-- A PDF as seen through pdf.js during extraction: `none` when `getDocument`
rejects, otherwise one entry per page giving that page's already-joined text
or a per-page extraction failure. -/
structure PdfModel where
  pages : Option (List (Except Str Str))
  deriving Repr, DecidableEq

/-- `const MAX_PAGES_CONTEXT = 50`. -/
def MAX_PAGES_CONTEXT : Nat := 50

/-- The literal marker returned for zero-page inputs. -/
def noReadablePagesMsg : Str := jsStr "[Error: This PDF contains no readable pages.]"

/-- The message of the error thrown when extraction fails wholesale. -/
def extractionFailureMsg : Str :=
  jsStr "Failed to extract text from PDF. The file might be corrupted, protected, or too complex for browser-based parsing."

/-- The trailing note appended when a PDF exceeds `MAX_PAGES_CONTEXT` pages. -/
def truncationNote : Str :=
  jsStr "\n\n[Note: Only the first 50 pages were indexed to ensure browser stability. Please refer to the document viewer for later pages.]"

/-- One loop iteration of `extractTextFromPdf`: the text contributed for page
`i` (1-based), with the per-page failure marker substituted on page error. -/
def perPageText (i : Nat) (r : Except Str Str) : Str :=
  match r with
  | .ok pageText => jsStr "[Page " ++ natToStr i ++ jsStr "] " ++ pageText ++ jsStr "\n\n"
  | .error _ => jsStr "[Page " ++ natToStr i ++ jsStr "] [Text extraction failed for this page]\n\n"

/-- `extractTextFromPdf` (src/unnamed/part_001): zero-page marker, per-page
loop over the first `min(numPages, 50)` pages, truncation note, and the
wholesale-failure error of the outer `catch`. -/
def extractTextFromPdf (pdf : PdfModel) : Except Str Str :=
  match pdf.pages with
  | none => .error extractionFailureMsg
  | some pages =>
      if pages.length = 0 then .ok noReadablePagesMsg
      else
        let pagesToExtract := min pages.length MAX_PAGES_CONTEXT
        let body := ((pages.take pagesToExtract).enum.map
          (fun p => perPageText (p.1 + 1) p.2)).flatten
        if MAX_PAGES_CONTEXT < pages.length then .ok (body ++ truncationNote)
        else .ok body

/-- A `File` as `processFile` consumes it. -/
structure FileModel where
  name : Str
  type : Str
  size : Nat
  pdf : PdfModel
  deriving Repr, DecidableEq

/-- Lookahead of the `cleanFileName` regex: the removed group must be followed
by `".pdf"` (case-insensitively) or the end of the string. -/
def startsWithPdfOrEnd (l : Str) : Bool :=
  match l with
  | [] => true
  | a :: b :: c :: d :: _ =>
      a == '.' && Char.toLower b == 'p' && Char.toLower c == 'd' && Char.toLower d == 'f'
  | _ => false

/-- One attempted match of `/\s\(\d+\)(?=\.pdf|$)/i` at the head of the
string: returns the remainder after the consumed ` (digits)` group when the
pattern matches there. -/
def matchDupSuffix (l : Str) : Option Str :=
  match l with
  | w :: '(' :: rest =>
      if w.isWhitespace then
        let ds := rest.takeWhile Char.isDigit
        if ds.isEmpty then none
        else
          match rest.drop ds.length with
          | ')' :: r3 => if startsWithPdfOrEnd r3 then some r3 else none
          | _ => none
      else none
  | _ => none

/-- Global scan of `name.replace(/\s\(\d+\)(?=\.pdf|$)/gi, '')`.  Fuel-based
(the fuel is the string length; each step consumes at least one character). -/
def cleanAux : Nat → Str → Str
  | 0, l => l
  | fuel + 1, l =>
      match l with
      | [] => []
      | c :: rest =>
          match matchDupSuffix (c :: rest) with
          | some r => cleanAux fuel r
          | none => c :: cleanAux fuel rest

/-- `cleanFileName` (App.tsx): strip upload-duplicate ` (n)` suffixes. -/
def cleanFileName (name : Str) : Str := cleanAux name.length name

/-- IndexedDB `store.put` on a store with key path `id`: upsert by key. -/
def putById (d : RailDocument) : List RailDocument → List RailDocument
  | [] => [d]
  | x :: xs => if x.id == d.id then d :: xs else x :: putById d xs

/-- Model of `crypto.randomUUID()`: the `k`-th identifier generated in a run.
The generator is opaque; all that matters is that each call yields a fresh
identifier. -/
def uidFor (k : Nat) : Str := jsStr "uuid-" ++ natToStr k

/-- `processFile` (App.tsx): type filter (returns `none`, not an error), size
cap, text extraction (errors propagate), then `saveDocument`; the stored
record's name is the cleaned file name.  The store update is applied by the
caller (`uploadLoop`) so the returned value mirrors the source's
`RailDocument | null`. -/
def processFile (uid : Str) (file : FileModel) : Except Str (Option RailDocument) :=
  if file.type != jsStr "application/pdf" &&
      !(strEndsWith (strLower file.name) (jsStr ".pdf")) then .ok none
  else if 50 * 1024 * 1024 < file.size then
    .error (jsStr "File \"" ++ file.name ++ jsStr "\" is too large (max 50MB).")
  else
    match extractTextFromPdf file.pdf with
    | .error e => .error e
    | .ok text => .ok (some ⟨uid, cleanFileName file.name, text, file.size⟩)

/-- Application state touched by `handleFileUpload`: the in-memory document
list, the persisted document store, and the error banner. -/
structure UploadState where
  documents : List RailDocument
  store : List RailDocument
  error : Option Str
  deriving Repr, DecidableEq

/-- The `for` loop of `handleFileUpload`: process files in order, saving each
produced document; the first thrown error aborts the loop. -/
def uploadLoop (k : Nat) (files : List FileModel) (store : List RailDocument)
    (newDocs : List RailDocument) :
    List RailDocument × List RailDocument × Option Str :=
  match files with
  | [] => (store, newDocs, none)
  | f :: fs =>
      match processFile (uidFor k) f with
      | .error e => (store, newDocs, some e)
      | .ok none => uploadLoop (k + 1) fs store newDocs
      | .ok (some d) => uploadLoop (k + 1) fs (putById d store) (newDocs ++ [d])

/-- `handleFileUpload` (App.tsx): on success append the new documents to the
in-memory list; on a thrown error set the banner and leave the in-memory list
unchanged (the `setDocuments` after the loop is never reached), keeping
whatever the loop already persisted. -/
def handleFileUpload (files : List FileModel) (st : UploadState) : UploadState :=
  let r := uploadLoop 0 files st.store []
  match r.2.2 with
  | some e => { documents := st.documents, store := r.1, error := some e }
  | none => { documents := st.documents ++ r.2.1, store := r.1, error := none }

/-! ## Render cancellation (`renderPage`, src/unnamed/part_000 lines 53–93)

`renderPage` is an async function; each invocation runs as a cooperative
coroutine on the event loop, suspended at its two `await`s.  We model an
invocation as a thread with a program counter marking the next segment:

* `start` — cancel `renderTaskRef.current` if set, then `await getPage`;
* `afterGetPage` — size the canvas (which clears the pixel surface), create
  and start the render task, store it in `renderTaskRef`, then `await` its
  promise;
* `afterRender tid` — the promise of task `tid` settled: if the task was
  cancelled its promise rejected with `RenderingCancelledException` and the
  handler returns without touching the error state; otherwise a genuine
  render failure sets the error, and success leaves the task's page on the
  surface.

pdf.js semantics assumed by the model: a render task paints the surface when
it completes, and a task cancelled before completion never completes; setting
`canvas.width`/`canvas.height` clears the canvas. -/

/-- Decimal rendering of an `Int` as a model string. -/
def intToStr : Int → Str
  | .ofNat n => natToStr n
  | .negSucc n => '-' :: natToStr (n + 1)

/-- Program counter of one `renderPage` invocation. -/
inductive RenderPc where
  | start
  | afterGetPage
  | afterRender (tid : Nat)
  deriving Repr, DecidableEq

/-- One `renderPage` invocation: the requested page, whether its render fails
for a reason other than cancellation, and its program counter. -/
structure RenderThread where
  page : Int
  renderFails : Bool
  pc : RenderPc
  deriving Repr, DecidableEq

/-- Shared state of a viewer session: the live invocations (`none` once
returned), the painted surface (painting task id and its page; `none` =
cleared canvas), `renderTaskRef.current`, the set of cancelled task ids, the
error banner, and the task-id allocator. -/
structure RenderConfig where
  threads : List (Option RenderThread)
  surface : Option (Nat × Int)
  currentTask : Option Nat
  cancelled : List Nat
  errorMsg : Option Str
  nextId : Nat
  deriving Repr, DecidableEq

/-- Run one segment of thread `i` (a no-op on an invalid or finished index). -/
def renderStep (cfg : RenderConfig) (i : Nat) : RenderConfig :=
  match cfg.threads[i]? with
  | some (some θ) =>
      match θ.pc with
      | .start =>
          { cfg with
            cancelled := match cfg.currentTask with
              | some u => u :: cfg.cancelled
              | none => cfg.cancelled,
            threads := cfg.threads.set i (some { θ with pc := .afterGetPage }) }
      | .afterGetPage =>
          { cfg with
            surface := none,
            currentTask := some cfg.nextId,
            nextId := cfg.nextId + 1,
            threads := cfg.threads.set i (some { θ with pc := .afterRender cfg.nextId }) }
      | .afterRender tid =>
          if tid ∈ cfg.cancelled then
            { cfg with threads := cfg.threads.set i none }
          else if θ.renderFails then
            { cfg with
              errorMsg := some (jsStr "Failed to render page " ++ intToStr θ.page ++ jsStr "."),
              threads := cfg.threads.set i none }
          else
            { cfg with
              surface := some (tid, θ.page),
              threads := cfg.threads.set i none }
  | _ => cfg

/-- Run a whole schedule (an arbitrary interleaving of thread segments). -/
def renderRun (cfg : RenderConfig) (sched : List Nat) : RenderConfig :=
  sched.foldl renderStep cfg

/-- Initial state for a batch of render requests `(page, renderFails)`, on a
freshly opened (blank) surface. -/
def initRenderConfig (reqs : List (Int × Bool)) : RenderConfig :=
  { threads := reqs.map (fun r => some ⟨r.1, r.2, .start⟩),
    surface := none, currentTask := none, cancelled := [], errorMsg := none, nextId := 0 }

/-- A painted-while-cancelled surface always has a live invocation that is
about to clear the canvas (its next segment sizes it). -/
def surfaceInv (cfg : RenderConfig) : Prop :=
  ∀ tid p, cfg.surface = some (tid, p) → tid ∈ cfg.cancelled →
    ∃ (j : Nat) (θ : RenderThread), cfg.threads[j]? = some (some θ) ∧ θ.pc = RenderPc.afterGetPage

/-- No live invocation can fail, and no error has been set. -/
def noFailInv (cfg : RenderConfig) : Prop :=
  (∀ (j : Nat) (θ : RenderThread), cfg.threads[j]? = some (some θ) → θ.renderFails = false) ∧ cfg.errorMsg = none

/-! ## Chat persistence (`storageService.ts`)

The chat store is an IndexedDB object store keyed by `id`.  `put` upserts by
key; `getAll` returns the records in ascending key order; `getChatHistory`
then re-sorts by timestamp with the (stable) JS array sort. -/

/-- IndexedDB `store.put` on the chat store (key path `id`): upsert by key. -/
def putMsg (m : ChatMessage) : List ChatMessage → List ChatMessage
  | [] => [m]
  | x :: xs => if x.id == m.id then m :: xs else x :: putMsg m xs

/-- `saveChatMessage` (storageService.ts): persist one message. -/
def saveChatMessage (m : ChatMessage) (store : List ChatMessage) : List ChatMessage :=
  putMsg m store

/-- Stable insertion: the new element goes after existing elements it does not
strictly precede, so elements comparing equal keep their relative order. -/
def insertLe {α : Type} (le : α → α → Bool) (x : α) : List α → List α
  | [] => [x]
  | y :: ys => if le y x then y :: insertLe le x ys else x :: y :: ys

/-- Stable insertion sort (left fold of `insertLe`).  A stable sort's output is
determined by the comparator, so this models any stable sort, in particular
ES2019+ `Array.prototype.sort` and IndexedDB key traversal. -/
def sortLe {α : Type} (le : α → α → Bool) (l : List α) : List α :=
  l.foldl (fun acc x => insertLe le x acc) []

/-- Lexicographic strict order on model strings (IndexedDB string-key order). -/
def strLtB : Str → Str → Bool
  | [], [] => false
  | [], _ :: _ => true
  | _ :: _, [] => false
  | a :: as, b :: bs => if a < b then true else if b < a then false else strLtB as bs

/-- Lexicographic `≤` on model strings. -/
def strLeB (a b : Str) : Bool := !(strLtB b a)

/-- IndexedDB `getAll` on the chat store: records in ascending key order. -/
def getAllByKey (store : List ChatMessage) : List ChatMessage :=
  sortLe (fun a b => strLeB a.id b.id) store

/-- The comparator `(a, b) => ts(a) - ts(b)` of `getChatHistory`. -/
def leTs (a b : ChatMessage) : Bool := decide (a.timestamp ≤ b.timestamp)

/-- `getChatHistory` (storageService.ts): `getAll`, then sort by timestamp
ascending. -/
def getChatHistory (store : List ChatMessage) : List ChatMessage :=
  sortLe leTs (getAllByKey store)

/-! ## The ask flow (`handleAsk`, App.tsx lines 208–243) -/

/-- Parsed response of the remote query (`GeminiResponse` in `types.ts`). -/
structure GeminiResponse where
  answer : Str
  citations : List Citation
  deriving Repr, DecidableEq

/-- Externally visible actions taken by one `handleAsk` run, in order. -/
inductive AskEvent where
  | saveMsg (m : ChatMessage)
  | remoteQuery (question : Str)
  | surfaceError (e : Str)
  deriving Repr, DecidableEq

/-- Whether an event is the remote query call. -/
def AskEvent.isQuery : AskEvent → Bool
  | .remoteQuery _ => true
  | _ => false

/-- Whether an event surfaces a failure to the user. -/
def AskEvent.isSurface : AskEvent → Bool
  | .surfaceError _ => true
  | _ => false

/-- Application state touched by `handleAsk`. -/
structure AskState where
  chatHistory : List ChatMessage
  chatStore : List ChatMessage
  inputText : Str
  isAsking : Bool
  error : Option Str
  deriving Repr, DecidableEq

/-- `handleAsk` (App.tsx): guard; append and persist the user message; invoke
the remote query once; on success append and persist the assistant message,
on failure set the error banner and add nothing.  `queryResult` is the
outcome of the opaque remote collaborator; the returned event list records
the persistence calls, the query and any surfaced error, in program order. -/
def handleAsk (userId assistantId : Str) (tUser tAssistant : Nat)
    (documents : List RailDocument) (queryResult : Except Str GeminiResponse)
    (st : AskState) : AskState × List AskEvent :=
  if (strTrim st.inputText).isEmpty || st.isAsking || documents.length == 0 then (st, [])
  else
    let userMsg : ChatMessage := ⟨userId, .user, st.inputText, none, tUser⟩
    let st1 : AskState :=
      { chatHistory := st.chatHistory ++ [userMsg],
        chatStore := putMsg userMsg st.chatStore,
        inputText := [], isAsking := true, error := none }
    match queryResult with
    | .ok r =>
        let aMsg : ChatMessage := ⟨assistantId, .assistant, r.answer, some r.citations, tAssistant⟩
        ({ st1 with chatHistory := st1.chatHistory ++ [aMsg],
                    chatStore := putMsg aMsg st1.chatStore, isAsking := false },
         [.saveMsg userMsg, .remoteQuery st.inputText, .saveMsg aMsg])
    | .error e =>
        ({ st1 with error := some e, isAsking := false },
         [.saveMsg userMsg, .remoteQuery st.inputText, .surfaceError e])

/-! ## Document deletion (`deleteDocument` / `removeDocument`) -/

/-- The two persisted collections of `RailStandardsDB`. -/
structure Stores where
  docStore : List RailDocument
  chatStore : List ChatMessage
  deriving Repr, DecidableEq

/-- `deleteDocument` (storageService.ts): IndexedDB delete by key on the
document store only; a no-op when the key is absent. -/
def deleteDocument (id : Str) (s : Stores) : Stores :=
  { s with docStore := s.docStore.filter (fun d => !(d.id == id)) }

/-- The in-memory update of `removeDocument` (App.tsx):
`setDocuments(prev => prev.filter(d => d.id !== id))`. -/
def removeDocumentMem (id : Str) (documents : List RailDocument) : List RailDocument :=
  documents.filter (fun d => !(d.id == id))

end RailStandardAI

namespace RailStandardAI

/-- **C6 counterexample.**  The claim asserts width ≥ 400 throughout every
viewer session including at first open; but on a 300×900 viewport the
initial-size effect yields width `min(300 · 0.9, 1000) = 270 < 400`. -/
theorem C6_counterexample :
    (initialSize 300 900).1 < 400 ∧ ¬ (400 ≤ (initialSize 300 900).1) := by
  constructor
  · norm_num [initialSize]
  · norm_num [initialSize]

/-- **C6 (amended).**  Every resize operation yields width ≥ 400 and
height ≥ 300 regardless of pointer delta magnitude or direction; the initial
size at first open is instead `min(0.9·viewport, 1000×850)`, which meets the
floor only when 90% of the corresponding viewport dimension does. -/
theorem C6_amended :
    (∀ startW startH dx dy : ℚ,
      400 ≤ (resizeSize startW startH dx dy).1 ∧
      300 ≤ (resizeSize startW startH dx dy).2) ∧
    (∀ vw vh : ℚ,
      (400 ≤ vw * (9 / 10) → 400 ≤ (initialSize vw vh).1) ∧
      (300 ≤ vh * (9 / 10) → 300 ≤ (initialSize vw vh).2)) := by
  refine ⟨fun startW startH dx dy => ⟨le_max_left _ _, le_max_left _ _⟩,
          fun vw vh => ⟨fun h => ?_, fun h => ?_⟩⟩
  · exact le_min h (by norm_num)
  · exact le_min h (by norm_num)

/-- **C6 amended witness.**  At resize-start size 900×800 with pointer delta
(−10000, −10000) the resize clamps to the 400×300 floor, and a 1600×900
viewport (90% = 1440×810) yields an initial size meeting the floor. -/
theorem C6_amended_witness :
    (400 ≤ (resizeSize 900 800 (-10000) (-10000)).1 ∧
     300 ≤ (resizeSize 900 800 (-10000) (-10000)).2) ∧
    (400 ≤ (initialSize 1600 900).1 ∧ 300 ≤ (initialSize 1600 900).2) :=
  ⟨C6_amended.1 900 800 (-10000) (-10000),
   (C6_amended.2 1600 900).1 (by norm_num),
   (C6_amended.2 1600 900).2 (by norm_num)⟩

/-- **C7.**  For a loaded document with `total ≥ 1` pages and a current page in
`[1, total]`: the previous/next buttons keep the page in `[1, total]`;
previous at page 1 and next at the last page are no-ops and the buttons are
disabled there; `renderPage` clamps any requested page into `[1, total]` and
leaves in-range pages unchanged. -/
theorem C7_page_navigation (total p : Int) (htotal : 1 ≤ total)
    (hp1 : 1 ≤ p) (hp2 : p ≤ total) :
    (1 ≤ prevPageClick p ∧ prevPageClick p ≤ total ∧
     1 ≤ nextPageClick total p ∧ nextPageClick total p ≤ total) ∧
    (prevPageClick 1 = 1 ∧ nextPageClick total total = total) ∧
    (prevDisabled 1 false = true ∧ nextDisabled total total false = true) ∧
    (∀ num : Int, 1 ≤ clampRenderPage total num ∧ clampRenderPage total num ≤ total ∧
      (1 ≤ num → num ≤ total → clampRenderPage total num = num)) := by
  refine ⟨?_, ?_, ?_, ?_⟩
  · simp only [prevPageClick, nextPageClick, le_max_iff, max_le_iff, le_min_iff, min_le_iff]
    omega
  · simp only [prevPageClick, nextPageClick]
    omega
  · constructor
    · simp [prevDisabled]
    · simp [nextDisabled]
  · intro num
    simp only [clampRenderPage, le_max_iff, max_le_iff, le_min_iff, min_le_iff]
    omega

/-- **C7 witness**: a 5-page document at page 3. -/
theorem C7_witness :
    (1 ≤ prevPageClick 3 ∧ prevPageClick 3 ≤ 5 ∧
     1 ≤ nextPageClick 5 3 ∧ nextPageClick 5 3 ≤ 5) ∧
    (prevPageClick 1 = 1 ∧ nextPageClick 5 5 = 5) ∧
    (prevDisabled 1 false = true ∧ nextDisabled 5 5 false = true) ∧
    (∀ num : Int, 1 ≤ clampRenderPage 5 num ∧ clampRenderPage 5 num ≤ 5 ∧
      (1 ≤ num → num ≤ 5 → clampRenderPage 5 num = num)) :=
  C7_page_navigation 5 3 (by decide) (by decide) (by decide)

/-- **C9.**  For a citation that resolves to a stored document: if its page
field is absent, zero, or negative, the viewer overlay opens at page 1; if the
page is positive, the overlay opens at that page. -/
theorem C9_page_defaulting (cit : Citation) (docs : List RailDocument)
    (d : RailDocument) (hres : resolveCitationDoc cit.standard docs = some d) :
    ((cit.page = none ∨ ∃ p : Int, cit.page = some p ∧ p ≤ 0) →
      handleCitationClick cit docs = .openClause d.name cit.clause 1) ∧
    (∀ p : Int, cit.page = some p → 0 < p →
      handleCitationClick cit docs = .openClause d.name cit.clause p) := by
  constructor
  · rintro (hnone | ⟨p, hp, hple⟩) <;>
      simp only [handleCitationClick, hres, defaultedPage] <;>
      [rw [hnone]; rw [hp]]
    · simp
    · rcases eq_or_lt_of_le hple with heq | hlt
      · simp [heq]
      · have hne : p ≠ 0 := by omega
        simp only [if_neg hne]
        congr 1
        omega
  · intro p hp hpos
    simp only [handleCitationClick, hres, defaultedPage]
    rw [hp]
    have hne : p ≠ 0 := by omega
    simp only [if_neg hne]
    congr 1
    omega

/-! ## C1: the two-pass citation resolution algorithm -/

/-- The foldl in `pickClosest` returns the head or a list element. -/
theorem pickClosest_foldl_mem (std : Str) (ds : List RailDocument) :
    ∀ d : RailDocument,
      (ds.foldl (fun best x => if nameDist std x < nameDist std best then x else best) d) = d ∨
      (ds.foldl (fun best x => if nameDist std x < nameDist std best then x else best) d) ∈ ds := by
  induction ds with
  | nil => intro d; exact Or.inl rfl
  | cons x xs ih =>
      intro d
      simp only [List.foldl_cons]
      rcases ih (if nameDist std x < nameDist std d then x else d) with h | h
      · rw [h]
        by_cases hx : nameDist std x < nameDist std d
        · rw [if_pos hx]; exact Or.inr (List.mem_cons_self _ _)
        · rw [if_neg hx]; exact Or.inl rfl
      · exact Or.inr (List.mem_cons_of_mem _ h)

/-- The foldl in `pickClosest` minimises `nameDist` over the head and the list. -/
theorem pickClosest_foldl_min (std : Str) (ds : List RailDocument) :
    ∀ d : RailDocument,
      nameDist std (ds.foldl (fun best x => if nameDist std x < nameDist std best then x else best) d) ≤
        nameDist std d ∧
      ∀ y ∈ ds,
        nameDist std (ds.foldl (fun best x => if nameDist std x < nameDist std best then x else best) d) ≤
          nameDist std y := by
  induction ds with
  | nil => intro d; exact ⟨le_refl _, fun y hy => absurd hy (List.not_mem_nil y)⟩
  | cons x xs ih =>
      intro d
      simp only [List.foldl_cons]
      obtain ⟨ih1, ih2⟩ := ih (if nameDist std x < nameDist std d then x else d)
      have hmin : nameDist std (if nameDist std x < nameDist std d then x else d) ≤ nameDist std d ∧
          nameDist std (if nameDist std x < nameDist std d then x else d) ≤ nameDist std x := by
        by_cases hx : nameDist std x < nameDist std d
        · rw [if_pos hx]; omega
        · rw [if_neg hx]; omega
      refine ⟨le_trans ih1 hmin.1, fun y hy => ?_⟩
      rcases List.mem_cons.mp hy with hyx | hyxs
      · rw [hyx]; exact le_trans ih1 hmin.2
      · exact ih2 y hyxs

/-- `pickClosest` returns `none` exactly on the empty candidate list. -/
theorem pickClosest_eq_none_iff (std : Str) (l : List RailDocument) :
    pickClosest std l = none ↔ l = [] := by
  cases l with
  | nil => simp [pickClosest]
  | cons d ds => simp [pickClosest]

/-- `pickClosest` returns a member of the candidate list minimising the
original-length distance to the citation string. -/
theorem pickClosest_spec (std : Str) (l : List RailDocument) (d : RailDocument)
    (h : pickClosest std l = some d) :
    d ∈ l ∧ ∀ d' ∈ l, nameDist std d ≤ nameDist std d' := by
  cases l with
  | nil => simp [pickClosest] at h
  | cons x xs =>
      simp only [pickClosest, Option.some.injEq] at h
      subst h
      constructor
      · rcases pickClosest_foldl_mem std xs x with h | h
        · rw [h]; exact List.mem_cons_self _ _
        · exact List.mem_cons_of_mem _ h
      · intro d' hd'
        obtain ⟨h1, h2⟩ := pickClosest_foldl_min std xs x
        rcases List.mem_cons.mp hd' with h' | h'
        · rw [h']; exact h1
        · exact h2 d' h'

/-- The source's first-pass predicate accepts a document exactly when its
(lowercased, `.pdf`-stripped, untrimmed) name equals the fully normalised
citation string: the extra `docName === target` disjunct of the source is
subsumed, since equal strings stay equal after stripping. -/
theorem citationExactPred_iff (std : Str) (d : RailDocument) :
    citationExactPred (strTrim (strLower std)) (stripPdfExt (strTrim (strLower std))) d = true ↔
      normalizeDocName d.name = stripPdfExt (strTrim (strLower std)) := by
  simp only [citationExactPred, Bool.or_eq_true, beq_iff_eq, normalizeDocName]
  constructor
  · rintro (h | h)
    · rw [h]
    · exact h
  · intro h
    exact Or.inr h

/-- **C1 counterexample.**  The claim normalises *both* sides with a trim; the
source never trims stored document names.  With documents named `" a.pdf"`
(leading space) and `"xa"` and citation standard `"a"`, the claim's algorithm
finds the exact normalised match `" a.pdf"`, but the source finds no exact
match and falls through to the fuzzy pass, which returns `"xa"` (closest
original length). -/
theorem C1_counterexample :
    resolveCitationDoc (jsStr "a")
        [⟨jsStr "d1", jsStr " a.pdf", jsStr "t", 6⟩, ⟨jsStr "d2", jsStr "xa", jsStr "t", 2⟩] =
      some ⟨jsStr "d2", jsStr "xa", jsStr "t", 2⟩ ∧
    resolveCitationSpec (jsStr "a")
        [⟨jsStr "d1", jsStr " a.pdf", jsStr "t", 6⟩, ⟨jsStr "d2", jsStr "xa", jsStr "t", 2⟩] =
      some ⟨jsStr "d1", jsStr " a.pdf", jsStr "t", 6⟩ ∧
    resolveCitationDoc (jsStr "a")
        [⟨jsStr "d1", jsStr " a.pdf", jsStr "t", 6⟩, ⟨jsStr "d2", jsStr "xa", jsStr "t", 2⟩] ≠
      resolveCitationSpec (jsStr "a")
        [⟨jsStr "d1", jsStr " a.pdf", jsStr "t", 6⟩, ⟨jsStr "d2", jsStr "xa", jsStr "t", 2⟩] := by
  refine ⟨by decide, by decide, by decide⟩

/-- **C1 (amended).**  Citation resolution follows the two-pass algorithm with
the *document* side normalised by lowercasing and stripping a trailing
`".pdf"` only (no trim), while the citation side is lowercased, trimmed and
stripped: an exact normalised match (the first, in storage order) wins over
any fuzzy candidate; otherwise the fuzzy candidates are the documents whose
normalised name is a substring of the normalised citation or vice versa, and
a candidate with original name length closest to the original citation
string's length is returned; not-found arises only when both passes yield
nothing. -/
theorem C1_amended (std : Str) (docs : List RailDocument) :
    ((∃ d ∈ docs, normalizeDocName d.name = normalizeCitation std) →
      ∃ d, resolveCitationDoc std docs = some d ∧ d ∈ docs ∧
        normalizeDocName d.name = normalizeCitation std) ∧
    ((∀ d ∈ docs, normalizeDocName d.name ≠ normalizeCitation std) →
      (∀ d, resolveCitationDoc std docs = some d →
        d ∈ docs ∧ citationFuzzyPred (normalizeCitation std) d = true ∧
        ∀ d' ∈ docs, citationFuzzyPred (normalizeCitation std) d' = true →
          nameDist std d ≤ nameDist std d') ∧
      ((∃ d ∈ docs, citationFuzzyPred (normalizeCitation std) d = true) →
        ∃ d, resolveCitationDoc std docs = some d)) ∧
    (resolveCitationDoc std docs = none ↔
      (∀ d ∈ docs, normalizeDocName d.name ≠ normalizeCitation std) ∧
      (∀ d ∈ docs, citationFuzzyPred (normalizeCitation std) d = false)) := by
  have hnormEq : normalizeCitation std = stripPdfExt (strTrim (strLower std)) := rfl
  refine ⟨?_, ?_, ?_⟩
  · rintro ⟨d, hd, hnorm⟩
    have hpred : citationExactPred (strTrim (strLower std))
        (stripPdfExt (strTrim (strLower std))) d = true :=
      (citationExactPred_iff std d).mpr (hnormEq ▸ hnorm)
    have : (docs.find? (citationExactPred (strTrim (strLower std))
        (stripPdfExt (strTrim (strLower std))))).isSome := by
      rw [List.find?_isSome]
      exact ⟨d, hd, hpred⟩
    rcases Option.isSome_iff_exists.mp this with ⟨d', hd'⟩
    refine ⟨d', ?_, List.mem_of_find?_eq_some hd',
      hnormEq ▸ (citationExactPred_iff std d').mp (List.find?_some hd')⟩
    simp only [resolveCitationDoc, hd']
  · intro hnone
    have hfind : docs.find? (citationExactPred (strTrim (strLower std))
        (stripPdfExt (strTrim (strLower std)))) = none := by
      rw [List.find?_eq_none]
      intro x hx hpred
      exact hnone x hx (hnormEq ▸ (citationExactPred_iff std x).mp hpred)
    constructor
    · intro d hres
      simp only [resolveCitationDoc, hfind] at hres
      obtain ⟨hmem, hmin⟩ := pickClosest_spec std _ d hres
      have hmem' := List.mem_filter.mp hmem
      exact ⟨hmem'.1, hmem'.2, fun d' hd' hcand =>
        hmin d' (List.mem_filter.mpr ⟨hd', hcand⟩)⟩
    · rintro ⟨d, hd, hcand⟩
      simp only [resolveCitationDoc, hfind]
      have : docs.filter (citationFuzzyPred (normalizeCitation std)) ≠ [] := by
        intro hnil
        rw [List.filter_eq_nil_iff] at hnil
        exact hnil d hd hcand
      rcases hne : pickClosest std (docs.filter (citationFuzzyPred (normalizeCitation std))) with
        _ | d'
      · rw [pickClosest_eq_none_iff] at hne
        exact absurd hne this
      · exact ⟨d', hne⟩
  · constructor
    · intro hres
      rcases hfind : docs.find? (citationExactPred (strTrim (strLower std))
          (stripPdfExt (strTrim (strLower std)))) with _ | d
      · simp only [resolveCitationDoc, hfind] at hres
        rw [pickClosest_eq_none_iff, List.filter_eq_nil_iff] at hres
        rw [List.find?_eq_none] at hfind
        constructor
        · intro d hd hnorm
          exact hfind d hd ((citationExactPred_iff std d).mpr (hnormEq ▸ hnorm))
        · intro d hd
          have hnot := hres d hd
          simp only [Bool.not_eq_true] at hnot
          exact hnot
      · simp only [resolveCitationDoc, hfind] at hres
        exact (Option.some_ne_none d hres).elim
    · rintro ⟨hexact, hfuzzy⟩
      have hfind : docs.find? (citationExactPred (strTrim (strLower std))
          (stripPdfExt (strTrim (strLower std)))) = none := by
        rw [List.find?_eq_none]
        intro x hx hpred
        exact hexact x hx (hnormEq ▸ (citationExactPred_iff std x).mp hpred)
      simp only [resolveCitationDoc, hfind]
      rw [pickClosest_eq_none_iff, List.filter_eq_nil_iff]
      intro a ha hcand
      have hfa := hfuzzy a ha
      rw [hnormEq] at hfa
      rw [hfa] at hcand
      exact Bool.false_ne_true hcand

/-- **C1 amended witness**: with the single stored document `"a.pdf"` and
citation standard `"a"`, the exact pass fires. -/
theorem C1_amended_witness :
    ∃ d, resolveCitationDoc (jsStr "a") [⟨jsStr "id1", jsStr "a.pdf", jsStr "t", 10⟩] = some d ∧
      d ∈ [(⟨jsStr "id1", jsStr "a.pdf", jsStr "t", 10⟩ : RailDocument)] ∧
      normalizeDocName d.name = normalizeCitation (jsStr "a") :=
  (C1_amended (jsStr "a") [⟨jsStr "id1", jsStr "a.pdf", jsStr "t", 10⟩]).1
    ⟨⟨jsStr "id1", jsStr "a.pdf", jsStr "t", 10⟩, by decide, by decide⟩

/-! ## C2 / C8: multi-file upload batches and zero-page PDFs -/

/-- `putById` always leaves the saved record in the store. -/
theorem putById_mem (d : RailDocument) (l : List RailDocument) : d ∈ putById d l := by
  induction l with
  | nil => exact List.mem_singleton.mpr rfl
  | cons x xs ih =>
      simp only [putById]
      by_cases hx : (x.id == d.id) = true
      · rw [if_pos hx]; exact List.mem_cons_self _ _
      · rw [if_neg hx]; exact List.mem_cons_of_mem _ ih

/-- `uploadLoop` on a batch whose prefix processes cleanly and then hits a
failing file: the loop stops at the failing file — the store and collected
documents are those of the prefix, the error is set, and the files after the
failure contribute nothing. -/
theorem uploadLoop_abort (fbad : FileModel)
    (hbad : ∀ uid, ∃ e, processFile uid fbad = .error e) (pre : List FileModel)
    (hpre : ∀ f ∈ pre, ∀ uid, ∃ r, processFile uid f = .ok r) :
    ∀ (k : Nat) (store newDocs : List RailDocument) (post : List FileModel),
      (uploadLoop k (pre ++ fbad :: post) store newDocs).1 =
        (uploadLoop k pre store newDocs).1 ∧
      (uploadLoop k (pre ++ fbad :: post) store newDocs).2.2.isSome = true ∧
      ∀ post' : List FileModel,
        uploadLoop k (pre ++ fbad :: post) store newDocs =
          uploadLoop k (pre ++ fbad :: post') store newDocs := by
  induction pre with
  | nil =>
      intro k store newDocs post
      obtain ⟨e, he⟩ := hbad (uidFor k)
      have hstep : ∀ q : List FileModel,
          uploadLoop k (fbad :: q) store newDocs = (store, newDocs, some e) := by
        intro q
        simp only [uploadLoop, he]
      refine ⟨?_, ?_, fun post' => ?_⟩
      · rw [List.nil_append, hstep post]
        rfl
      · rw [List.nil_append, hstep post]
        rfl
      · rw [List.nil_append, List.nil_append, hstep post, hstep post']
  | cons f fs ih =>
      intro k store newDocs post
      obtain ⟨r, hr⟩ := hpre f (List.mem_cons_self _ _) (uidFor k)
      have ihfs := ih (fun g hg => hpre g (List.mem_cons_of_mem _ hg))
      cases r with
      | none =>
          simp only [List.cons_append, uploadLoop, hr]
          exact ihfs (k + 1) store newDocs post
      | some d =>
          simp only [List.cons_append, uploadLoop, hr]
          exact ihfs (k + 1) (putById d store) (newDocs ++ [d]) post

/-- **C2 counterexample.**  The claim asserts an extraction failure is confined
to its file.  In the batch `[good1.pdf, bad.pdf, good2.pdf]` — where
`bad.pdf` is unreadable (its `getDocument` rejects) — the thrown error
escapes the upload loop: `good2.pdf` is never processed, so the store ends
with a single document and contains nothing named `good2.pdf`. -/
theorem C2_counterexample :
    (handleFileUpload
        [⟨jsStr "good1.pdf", jsStr "application/pdf", 10, ⟨some [.ok (jsStr "alpha")]⟩⟩,
         ⟨jsStr "bad.pdf", jsStr "application/pdf", 10, ⟨none⟩⟩,
         ⟨jsStr "good2.pdf", jsStr "application/pdf", 10, ⟨some [.ok (jsStr "beta")]⟩⟩]
        ⟨[], [], none⟩).store.length = 1 ∧
    ¬ ∃ d ∈ (handleFileUpload
        [⟨jsStr "good1.pdf", jsStr "application/pdf", 10, ⟨some [.ok (jsStr "alpha")]⟩⟩,
         ⟨jsStr "bad.pdf", jsStr "application/pdf", 10, ⟨none⟩⟩,
         ⟨jsStr "good2.pdf", jsStr "application/pdf", 10, ⟨some [.ok (jsStr "beta")]⟩⟩]
        ⟨[], [], none⟩).store, d.name = jsStr "good2.pdf" := by
  refine ⟨by decide, by decide⟩

/-- **C2 (amended).**  An extraction failure aborts the rest of the batch: the
files before the first failing file are processed and their documents
persisted (the store equals the store produced by uploading the prefix
alone), the failing file and every file after it contribute nothing, the
in-memory document list is left unchanged for the whole batch, and the error
is surfaced. -/
theorem C2_amended (pre post : List FileModel) (fbad : FileModel) (st : UploadState)
    (hpre : ∀ f ∈ pre, ∀ uid, ∃ r, processFile uid f = .ok r)
    (hbad : ∀ uid, ∃ e, processFile uid fbad = .error e) :
    (handleFileUpload (pre ++ fbad :: post) st).store = (handleFileUpload pre st).store ∧
    (handleFileUpload (pre ++ fbad :: post) st).documents = st.documents ∧
    (handleFileUpload (pre ++ fbad :: post) st).error.isSome = true ∧
    ∀ post' : List FileModel,
      handleFileUpload (pre ++ fbad :: post) st = handleFileUpload (pre ++ fbad :: post') st := by
  obtain ⟨hstore, hsome, hpost⟩ := uploadLoop_abort fbad hbad pre hpre 0 st.store [] post
  rcases herr : (uploadLoop 0 (pre ++ fbad :: post) st.store []).2.2 with _ | e
  · rw [herr] at hsome; simp at hsome
  · refine ⟨?_, ?_, ?_, ?_⟩
    · simp only [handleFileUpload, herr]
      rcases herr' : (uploadLoop 0 pre st.store []).2.2 with _ | e' <;>
        simp only [herr'] <;> exact hstore
    · simp only [handleFileUpload, herr]
    · simp only [handleFileUpload, herr, Option.isSome_some]
    · intro post'
      simp only [handleFileUpload, hpost post']

/-- **C2 amended witness**: prefix `[good1.pdf]`, failing `bad.pdf`, suffix
`[good2.pdf]`, from the empty state. -/
theorem C2_amended_witness :
    (handleFileUpload
        [⟨jsStr "good1.pdf", jsStr "application/pdf", 10, ⟨some [.ok (jsStr "alpha")]⟩⟩,
         ⟨jsStr "bad.pdf", jsStr "application/pdf", 10, ⟨none⟩⟩,
         ⟨jsStr "good2.pdf", jsStr "application/pdf", 10, ⟨some [.ok (jsStr "beta")]⟩⟩]
        ⟨[], [], none⟩).store =
      (handleFileUpload
        [⟨jsStr "good1.pdf", jsStr "application/pdf", 10, ⟨some [.ok (jsStr "alpha")]⟩⟩]
        ⟨[], [], none⟩).store ∧
    (handleFileUpload
        [⟨jsStr "good1.pdf", jsStr "application/pdf", 10, ⟨some [.ok (jsStr "alpha")]⟩⟩,
         ⟨jsStr "bad.pdf", jsStr "application/pdf", 10, ⟨none⟩⟩,
         ⟨jsStr "good2.pdf", jsStr "application/pdf", 10, ⟨some [.ok (jsStr "beta")]⟩⟩]
        ⟨[], [], none⟩).documents = [] ∧
    (handleFileUpload
        [⟨jsStr "good1.pdf", jsStr "application/pdf", 10, ⟨some [.ok (jsStr "alpha")]⟩⟩,
         ⟨jsStr "bad.pdf", jsStr "application/pdf", 10, ⟨none⟩⟩,
         ⟨jsStr "good2.pdf", jsStr "application/pdf", 10, ⟨some [.ok (jsStr "beta")]⟩⟩]
        ⟨[], [], none⟩).error.isSome = true :=
  have h := C2_amended
    [⟨jsStr "good1.pdf", jsStr "application/pdf", 10, ⟨some [.ok (jsStr "alpha")]⟩⟩]
    [⟨jsStr "good2.pdf", jsStr "application/pdf", 10, ⟨some [.ok (jsStr "beta")]⟩⟩]
    ⟨jsStr "bad.pdf", jsStr "application/pdf", 10, ⟨none⟩⟩ ⟨[], [], none⟩
    (by
      intro f hf uid
      rcases List.mem_singleton.mp hf with rfl
      exact ⟨some ⟨uid, jsStr "good1.pdf", jsStr "[Page 1] alpha\n\n", 10⟩, rfl⟩)
    (fun uid => ⟨extractionFailureMsg, rfl⟩)
  ⟨h.1, h.2.1, h.2.2.1⟩

/-- **C8.**  A valid-type, within-size PDF with zero readable pages extracts to
exactly the literal marker string, and uploading it still stores the document
(with the marker as its content) without surfacing any error. -/
theorem C8_zero_page_pdf (file : FileModel) (st : UploadState)
    (hpages : file.pdf.pages = some [])
    (htype : file.type = jsStr "application/pdf")
    (hsize : file.size ≤ 50 * 1024 * 1024) :
    extractTextFromPdf file.pdf = .ok noReadablePagesMsg ∧
    ∃ d : RailDocument,
      processFile (uidFor 0) file = .ok (some d) ∧
      d.content = noReadablePagesMsg ∧
      (handleFileUpload [file] st).store = putById d st.store ∧
      d ∈ (handleFileUpload [file] st).store ∧
      (handleFileUpload [file] st).error = none ∧
      (handleFileUpload [file] st).documents = st.documents ++ [d] := by
  have hextract : extractTextFromPdf file.pdf = .ok noReadablePagesMsg := by
    rw [extractTextFromPdf, hpages]
    simp
  have htypeNe : (file.type != jsStr "application/pdf") = false := by
    simp [htype]
  have hproc : processFile (uidFor 0) file =
      .ok (some ⟨uidFor 0, cleanFileName file.name, noReadablePagesMsg, file.size⟩) := by
    rw [processFile, htypeNe]
    simp only [Bool.false_and, Bool.false_eq_true, if_false]
    rw [if_neg (by omega), hextract]
  have hupload : handleFileUpload [file] st =
      { documents := st.documents ++
          [⟨uidFor 0, cleanFileName file.name, noReadablePagesMsg, file.size⟩],
        store := putById ⟨uidFor 0, cleanFileName file.name, noReadablePagesMsg, file.size⟩
          st.store,
        error := none } := by
    simp only [handleFileUpload, uploadLoop, hproc, List.nil_append]
  refine ⟨hextract, ⟨uidFor 0, cleanFileName file.name, noReadablePagesMsg, file.size⟩, hproc,
    rfl, ?_, ?_, ?_, ?_⟩
  · rw [hupload]
  · rw [hupload]
    exact putById_mem _ _
  · rw [hupload]
  · rw [hupload]

/-- **C8 witness**: a zero-page `empty.pdf` uploaded into the empty state. -/
theorem C8_witness :
    extractTextFromPdf (PdfModel.mk (some [])) = .ok noReadablePagesMsg ∧
    ∃ d : RailDocument,
      processFile (uidFor 0) ⟨jsStr "empty.pdf", jsStr "application/pdf", 4, ⟨some []⟩⟩ =
        .ok (some d) ∧
      d.content = noReadablePagesMsg ∧
      (handleFileUpload [⟨jsStr "empty.pdf", jsStr "application/pdf", 4, ⟨some []⟩⟩]
          ⟨[], [], none⟩).store = putById d [] ∧
      d ∈ (handleFileUpload [⟨jsStr "empty.pdf", jsStr "application/pdf", 4, ⟨some []⟩⟩]
          ⟨[], [], none⟩).store ∧
      (handleFileUpload [⟨jsStr "empty.pdf", jsStr "application/pdf", 4, ⟨some []⟩⟩]
          ⟨[], [], none⟩).error = none ∧
      (handleFileUpload [⟨jsStr "empty.pdf", jsStr "application/pdf", 4, ⟨some []⟩⟩]
          ⟨[], [], none⟩).documents = [] ++ [d] :=
  C8_zero_page_pdf ⟨jsStr "empty.pdf", jsStr "application/pdf", 4, ⟨some []⟩⟩
    ⟨[], [], none⟩ rfl rfl (by decide)

/-! ## C4: the ask flow -/

/-- **C4.**  When the guard passes (non-blank input, not already asking, at
least one document): the user message is persisted strictly before the
remote query is issued; the query is issued exactly once and at most one
failure is surfaced (no automatic retry); on failure, the appended and
persisted user message remains, the error is set, and no assistant message
is added; on success, the assistant message is appended and persisted. -/
theorem C4_ask_flow (userId assistantId : Str) (tUser tAssistant : Nat)
    (documents : List RailDocument) (queryResult : Except Str GeminiResponse)
    (st : AskState)
    (hinput : (strTrim st.inputText).isEmpty = false)
    (hask : st.isAsking = false)
    (hdocs : documents.length ≠ 0) :
    ((handleAsk userId assistantId tUser tAssistant documents queryResult st).2.head? =
        some (.saveMsg ⟨userId, .user, st.inputText, none, tUser⟩) ∧
      (handleAsk userId assistantId tUser tAssistant documents queryResult st).2[1]? =
        some (.remoteQuery st.inputText)) ∧
    ((handleAsk userId assistantId tUser tAssistant documents queryResult
        st).2.filter AskEvent.isQuery).length = 1 ∧
    ((handleAsk userId assistantId tUser tAssistant documents queryResult
        st).2.filter AskEvent.isSurface).length ≤ 1 ∧
    (∀ e, queryResult = .error e →
      (handleAsk userId assistantId tUser tAssistant documents queryResult st).1.chatHistory =
        st.chatHistory ++ [⟨userId, .user, st.inputText, none, tUser⟩] ∧
      (handleAsk userId assistantId tUser tAssistant documents queryResult st).1.chatStore =
        putMsg ⟨userId, .user, st.inputText, none, tUser⟩ st.chatStore ∧
      (handleAsk userId assistantId tUser tAssistant documents queryResult st).1.error = some e ∧
      ∀ m ∈ (handleAsk userId assistantId tUser tAssistant documents queryResult
          st).1.chatHistory, m.role = .assistant → m ∈ st.chatHistory) ∧
    (∀ r, queryResult = .ok r →
      (handleAsk userId assistantId tUser tAssistant documents queryResult st).1.chatHistory =
        st.chatHistory ++ [⟨userId, .user, st.inputText, none, tUser⟩,
          ⟨assistantId, .assistant, r.answer, some r.citations, tAssistant⟩] ∧
      (handleAsk userId assistantId tUser tAssistant documents queryResult st).1.chatStore =
        putMsg ⟨assistantId, .assistant, r.answer, some r.citations, tAssistant⟩
          (putMsg ⟨userId, .user, st.inputText, none, tUser⟩ st.chatStore)) := by
  have hguard : ((strTrim st.inputText).isEmpty || st.isAsking ||
      (documents.length == 0)) = false := by
    rw [hinput, hask]
    simp [hdocs]
  cases queryResult with
  | error e =>
      simp only [handleAsk, hguard, Bool.false_eq_true, if_false]
      refine ⟨⟨by trivial, by trivial⟩, by trivial,
        by simp [AskEvent.isSurface, AskEvent.isQuery], ?_, ?_⟩
      · intro e' he'
        obtain rfl : e = e' := Except.error.inj he'
        refine ⟨by simp, by trivial, by trivial, ?_⟩
        intro m hm hrole
        have hm' : m ∈ st.chatHistory ∨
            m = ⟨userId, .user, st.inputText, none, tUser⟩ := by
          simpa using hm
        rcases hm' with h | rfl
        · exact h
        · exact absurd hrole (fun hcontra => Role.noConfusion hcontra)
      · intro r hr
        exact absurd hr (by simp)
  | ok r =>
      simp only [handleAsk, hguard, Bool.false_eq_true, if_false]
      refine ⟨⟨by trivial, by trivial⟩, by trivial,
        by simp [AskEvent.isSurface, AskEvent.isQuery], ?_, ?_⟩
      · intro e he
        exact absurd he (by simp)
      · intro r' hr'
        obtain rfl : r = r' := Except.ok.inj hr'
        exact ⟨by simp, by trivial⟩

/-- **C4 witness**: input `"hi"`, one stored document, remote failure
`"boom"`: the user message persists, the error surfaces once, no assistant
message is added. -/
theorem C4_witness :
    ((handleAsk (jsStr "u1") (jsStr "a1") 100 200
        [⟨jsStr "d1", jsStr "a.pdf", jsStr "t", 1⟩] (.error (jsStr "boom"))
        ⟨[], [], jsStr "hi", false, none⟩).2.head? =
      some (.saveMsg ⟨jsStr "u1", .user, jsStr "hi", none, 100⟩) ∧
     (handleAsk (jsStr "u1") (jsStr "a1") 100 200
        [⟨jsStr "d1", jsStr "a.pdf", jsStr "t", 1⟩] (.error (jsStr "boom"))
        ⟨[], [], jsStr "hi", false, none⟩).2[1]? =
      some (.remoteQuery (jsStr "hi"))) ∧
    ((handleAsk (jsStr "u1") (jsStr "a1") 100 200
        [⟨jsStr "d1", jsStr "a.pdf", jsStr "t", 1⟩] (.error (jsStr "boom"))
        ⟨[], [], jsStr "hi", false, none⟩).2.filter AskEvent.isQuery).length = 1 ∧
    ((handleAsk (jsStr "u1") (jsStr "a1") 100 200
        [⟨jsStr "d1", jsStr "a.pdf", jsStr "t", 1⟩] (.error (jsStr "boom"))
        ⟨[], [], jsStr "hi", false, none⟩).2.filter AskEvent.isSurface).length ≤ 1 ∧
    (∀ e, (Except.error (jsStr "boom") : Except Str GeminiResponse) = .error e →
      (handleAsk (jsStr "u1") (jsStr "a1") 100 200
        [⟨jsStr "d1", jsStr "a.pdf", jsStr "t", 1⟩] (.error (jsStr "boom"))
        ⟨[], [], jsStr "hi", false, none⟩).1.chatHistory =
        [] ++ [⟨jsStr "u1", .user, jsStr "hi", none, 100⟩] ∧
      (handleAsk (jsStr "u1") (jsStr "a1") 100 200
        [⟨jsStr "d1", jsStr "a.pdf", jsStr "t", 1⟩] (.error (jsStr "boom"))
        ⟨[], [], jsStr "hi", false, none⟩).1.chatStore =
        putMsg ⟨jsStr "u1", .user, jsStr "hi", none, 100⟩ [] ∧
      (handleAsk (jsStr "u1") (jsStr "a1") 100 200
        [⟨jsStr "d1", jsStr "a.pdf", jsStr "t", 1⟩] (.error (jsStr "boom"))
        ⟨[], [], jsStr "hi", false, none⟩).1.error = some e ∧
      ∀ m ∈ (handleAsk (jsStr "u1") (jsStr "a1") 100 200
        [⟨jsStr "d1", jsStr "a.pdf", jsStr "t", 1⟩] (.error (jsStr "boom"))
        ⟨[], [], jsStr "hi", false, none⟩).1.chatHistory, m.role = .assistant → m ∈ []) ∧
    (∀ r, (Except.error (jsStr "boom") : Except Str GeminiResponse) = .ok r →
      (handleAsk (jsStr "u1") (jsStr "a1") 100 200
        [⟨jsStr "d1", jsStr "a.pdf", jsStr "t", 1⟩] (.error (jsStr "boom"))
        ⟨[], [], jsStr "hi", false, none⟩).1.chatHistory =
        [] ++ [⟨jsStr "u1", .user, jsStr "hi", none, 100⟩,
          ⟨jsStr "a1", .assistant, r.answer, some r.citations, 200⟩] ∧
      (handleAsk (jsStr "u1") (jsStr "a1") 100 200
        [⟨jsStr "d1", jsStr "a.pdf", jsStr "t", 1⟩] (.error (jsStr "boom"))
        ⟨[], [], jsStr "hi", false, none⟩).1.chatStore =
        putMsg ⟨jsStr "a1", .assistant, r.answer, some r.citations, 200⟩
          (putMsg ⟨jsStr "u1", .user, jsStr "hi", none, 100⟩ [])) :=
  C4_ask_flow (jsStr "u1") (jsStr "a1") 100 200
    [⟨jsStr "d1", jsStr "a.pdf", jsStr "t", 1⟩] (.error (jsStr "boom"))
    ⟨[], [], jsStr "hi", false, none⟩ (by decide) rfl (by decide)

/-! ## C5: chat round-trip through the store -/

/-- `put` of a message with a fresh key appends it. -/
theorem putMsg_fresh (m : ChatMessage) (l : List ChatMessage)
    (h : m.id ∉ l.map ChatMessage.id) : putMsg m l = l ++ [m] := by
  induction l with
  | nil => rfl
  | cons x xs ih =>
      have hxm : (x.id == m.id) = false := by
        refine beq_eq_false_iff_ne.mpr ?_
        intro hcontra
        exact h (by simp [hcontra])
      simp only [putMsg, hxm, Bool.false_eq_true, if_false, List.cons_append,
        List.cons.injEq, true_and]
      exact ih (fun hmem => h (List.mem_cons_of_mem _ hmem))

/-- Appending messages with fresh, pairwise-distinct keys one `put` at a time
builds the store in append order. -/
theorem buildStore_eq (msgs : List ChatMessage) :
    ∀ acc : List ChatMessage, ((acc ++ msgs).map ChatMessage.id).Nodup →
      msgs.foldl (fun s m => saveChatMessage m s) acc = acc ++ msgs := by
  induction msgs with
  | nil => intro acc _; simp
  | cons m fs ih =>
      intro acc hnodup
      have hfresh : m.id ∉ acc.map ChatMessage.id := by
        rw [List.map_append] at hnodup
        obtain ⟨-, -, hdisj⟩ := List.nodup_append.mp hnodup
        intro hmem
        exact hdisj hmem (by simp)
      have hstep : saveChatMessage m acc = acc ++ [m] := putMsg_fresh m acc hfresh
      have hre : (acc ++ [m]) ++ fs = acc ++ m :: fs := by
        rw [List.append_assoc, List.singleton_append]
      simp only [List.foldl_cons]
      rw [hstep, ih (acc ++ [m]) (by rw [hre]; exact hnodup), hre]

/-- `insertLe` permutes consing. -/
theorem insertLe_perm {α : Type} (le : α → α → Bool) (x : α) (l : List α) :
    List.Perm (insertLe le x l) (x :: l) := by
  induction l with
  | nil => exact List.Perm.refl _
  | cons y ys ih =>
      simp only [insertLe]
      by_cases h : le y x = true
      · rw [if_pos h]
        exact (ih.cons y).trans (List.Perm.swap x y ys)
      · rw [if_neg h]

/-- `sortLe` permutes its input. -/
theorem sortLe_perm {α : Type} (le : α → α → Bool) (l : List α) :
    List.Perm (sortLe le l) l := by
  have haux : ∀ (l acc : List α),
      List.Perm (l.foldl (fun a x => insertLe le x a) acc) (acc ++ l) := by
    intro l
    induction l with
    | nil => intro acc; simp
    | cons x xs ih =>
        intro acc
        simp only [List.foldl_cons]
        refine (ih (insertLe le x acc)).trans ?_
        refine (((insertLe_perm le x acc).append_right xs).trans ?_)
        exact List.perm_middle.symm
  simpa using haux l []

/-- `insertLe` preserves sortedness for a total, transitive comparator. -/
theorem insertLe_sorted {α : Type} (le : α → α → Bool)
    (htotal : ∀ a b, le a b = true ∨ le b a = true)
    (htrans : ∀ a b c, le a b = true → le b c = true → le a c = true)
    (x : α) (l : List α) (hl : l.Pairwise (fun a b => le a b = true)) :
    (insertLe le x l).Pairwise (fun a b => le a b = true) := by
  induction l with
  | nil => exact List.pairwise_singleton _ _
  | cons y ys ih =>
      obtain ⟨hy, hys⟩ := List.pairwise_cons.mp hl
      simp only [insertLe]
      by_cases h : le y x = true
      · rw [if_pos h]
        refine List.pairwise_cons.mpr ⟨?_, ih hys⟩
        intro z hz
        have hz' : z ∈ x :: ys := (insertLe_perm le x ys).mem_iff.mp hz
        rcases List.mem_cons.mp hz' with rfl | hzys
        · exact h
        · exact hy z hzys
      · rw [if_neg h]
        have hxy : le x y = true := (htotal x y).resolve_right (fun h' => h h')
        refine List.pairwise_cons.mpr ⟨?_, hl⟩
        intro z hz
        rcases List.mem_cons.mp hz with rfl | hzys
        · exact hxy
        · exact htrans x y z hxy (hy z hzys)

/-- `sortLe` sorts, for a total, transitive comparator. -/
theorem sortLe_sorted {α : Type} (le : α → α → Bool)
    (htotal : ∀ a b, le a b = true ∨ le b a = true)
    (htrans : ∀ a b c, le a b = true → le b c = true → le a c = true)
    (l : List α) : (sortLe le l).Pairwise (fun a b => le a b = true) := by
  have haux : ∀ (l acc : List α), acc.Pairwise (fun a b => le a b = true) →
      (l.foldl (fun a x => insertLe le x a) acc).Pairwise (fun a b => le a b = true) := by
    intro l
    induction l with
    | nil => intro acc hacc; exact hacc
    | cons x xs ih =>
        intro acc hacc
        exact ih (insertLe le x acc) (insertLe_sorted le htotal htrans x acc hacc)
  exact haux l [] List.Pairwise.nil

/-- **C5 counterexample.**  Two messages appended in the order `id "b"` then
`id "a"` with equal timestamps: IndexedDB `getAll` returns them in key order
(`"a"` first) and the stable timestamp sort keeps that order, so the reloaded
transcript is not the appended transcript. -/
theorem C5_counterexample :
    getChatHistory
        ([⟨jsStr "b", .user, jsStr "one", none, 5⟩,
          ⟨jsStr "a", .user, jsStr "two", none, 5⟩].foldl
          (fun s m => saveChatMessage m s) []) ≠
      [⟨jsStr "b", .user, jsStr "one", none, 5⟩,
       ⟨jsStr "a", .user, jsStr "two", none, 5⟩] ∧
    getChatHistory
        ([⟨jsStr "b", .user, jsStr "one", none, 5⟩,
          ⟨jsStr "a", .user, jsStr "two", none, 5⟩].foldl
          (fun s m => saveChatMessage m s) []) =
      [⟨jsStr "a", .user, jsStr "two", none, 5⟩,
       ⟨jsStr "b", .user, jsStr "one", none, 5⟩] := by
  refine ⟨by decide, by decide⟩

/-- **C5 (amended).**  For every sequence of chat messages with pairwise
distinct identifiers and strictly increasing timestamps, appending and
persisting them and then reloading the store yields the identical transcript,
in timestamp-ascending (= append) order.  (With equal timestamps the reload
is still a timestamp-sorted permutation, but ties come back in key order, not
append order.) -/
theorem C5_amended (msgs : List ChatMessage)
    (hids : (msgs.map ChatMessage.id).Nodup)
    (hts : msgs.Chain' (fun a b => a.timestamp < b.timestamp)) :
    getChatHistory (msgs.foldl (fun s m => saveChatMessage m s) []) = msgs := by
  have hstore : msgs.foldl (fun s m => saveChatMessage m s) [] = msgs :=
    buildStore_eq msgs [] (by simpa using hids)
  rw [hstore]
  haveI : IsTrans ChatMessage (fun a b => a.timestamp < b.timestamp) :=
    ⟨fun a b c hab hbc => Nat.lt_trans hab hbc⟩
  haveI : IsAntisymm ChatMessage (fun a b => a.timestamp < b.timestamp) :=
    ⟨fun a b hab hba => absurd hba (Nat.lt_asymm hab)⟩
  have hperm : List.Perm (getChatHistory msgs) msgs :=
    (sortLe_perm leTs (getAllByKey msgs)).trans (sortLe_perm _ msgs)
  have hmsgsLt : msgs.Pairwise (fun a b => a.timestamp < b.timestamp) :=
    List.chain'_iff_pairwise.mp hts
  have htotal : ∀ a b : ChatMessage, leTs a b = true ∨ leTs b a = true := by
    intro a b
    rcases Nat.le_total a.timestamp b.timestamp with h | h
    · exact Or.inl (decide_eq_true h)
    · exact Or.inr (decide_eq_true h)
  have htrans : ∀ a b c : ChatMessage, leTs a b = true → leTs b c = true →
      leTs a c = true := by
    intro a b c hab hbc
    exact decide_eq_true (Nat.le_trans (of_decide_eq_true hab) (of_decide_eq_true hbc))
  have htsNodupMsgs : (msgs.map ChatMessage.timestamp).Nodup :=
    List.pairwise_map.mpr (hmsgsLt.imp (fun h => Nat.ne_of_lt h))
  have htsNodupRes : ((getChatHistory msgs).map ChatMessage.timestamp).Nodup :=
    ((hperm.map ChatMessage.timestamp).nodup_iff).mpr htsNodupMsgs
  have hresLe : (getChatHistory msgs).Pairwise (fun a b => a.timestamp ≤ b.timestamp) := by
    have h := sortLe_sorted leTs htotal htrans (getAllByKey msgs)
    exact List.Pairwise.imp (fun hab => of_decide_eq_true hab) h
  have hresNe : (getChatHistory msgs).Pairwise (fun a b => a.timestamp ≠ b.timestamp) :=
    List.pairwise_map.mp htsNodupRes
  have hresLt : (getChatHistory msgs).Pairwise (fun a b => a.timestamp < b.timestamp) :=
    (hresLe.and hresNe).imp (fun h => Nat.lt_of_le_of_ne h.1 h.2)
  exact List.eq_of_perm_of_sorted hperm hresLt hmsgsLt

/-- **C5 amended witness**: three messages with distinct identifiers and
strictly increasing timestamps round-trip identically. -/
theorem C5_amended_witness :
    getChatHistory
        ([⟨jsStr "m1", .user, jsStr "q", none, 1⟩,
          ⟨jsStr "m2", .assistant, jsStr "a", some [], 2⟩,
          ⟨jsStr "m3", .user, jsStr "q2", none, 3⟩].foldl
          (fun s m => saveChatMessage m s) []) =
      [⟨jsStr "m1", .user, jsStr "q", none, 1⟩,
       ⟨jsStr "m2", .assistant, jsStr "a", some [], 2⟩,
       ⟨jsStr "m3", .user, jsStr "q2", none, 3⟩] :=
  C5_amended
    [⟨jsStr "m1", .user, jsStr "q", none, 1⟩,
     ⟨jsStr "m2", .assistant, jsStr "a", some [], 2⟩,
     ⟨jsStr "m3", .user, jsStr "q2", none, 3⟩]
    (by decide) (by simp [List.chain'_cons])


/-- **C10.**  Deleting a document by identifier touches only the document
collection: the chat collection — and with it every assistant message's
citation list — is unchanged, every other document record survives, only
records with the given identifier disappear; and activating a citation that
no longer resolves takes the explicit not-found path (an error message, not a
failure). -/
theorem C10_delete_frame (id : Str) (s : Stores) :
    (deleteDocument id s).chatStore = s.chatStore ∧
    (∀ d ∈ s.docStore, d.id ≠ id → d ∈ (deleteDocument id s).docStore) ∧
    (∀ d ∈ (deleteDocument id s).docStore, d ∈ s.docStore ∧ d.id ≠ id) ∧
    (∀ (cit : Citation) (docs : List RailDocument),
      resolveCitationDoc cit.standard docs = none →
      handleCitationClick cit docs = .notFound (jsStr "Standard \"" ++ cit.standard ++
        jsStr "\" not found in your local library.")) := by
  refine ⟨rfl, ?_, ?_, ?_⟩
  · intro d hd hne
    refine List.mem_filter.mpr ⟨hd, ?_⟩
    simp [hne]
  · intro d hd
    have h := List.mem_filter.mp hd
    refine ⟨h.1, ?_⟩
    intro heq
    rw [heq] at h
    simp at h
  · intro cit docs hres
    simp only [handleCitationClick, hres]

/-- **C10 witness**: deleting `"d1"` removes only that document, keeps the
chat (including an assistant message citing it), and the stale citation then
resolves to the not-found message. -/
theorem C10_witness :
    (deleteDocument (jsStr "d1")
        ⟨[⟨jsStr "d1", jsStr "a.pdf", jsStr "t", 1⟩],
         [⟨jsStr "m1", .assistant, jsStr "ans", some [⟨jsStr "a.pdf", jsStr "1.2", some 2⟩], 7⟩]⟩).chatStore =
      [⟨jsStr "m1", .assistant, jsStr "ans", some [⟨jsStr "a.pdf", jsStr "1.2", some 2⟩], 7⟩] ∧
    (deleteDocument (jsStr "d1")
        ⟨[⟨jsStr "d1", jsStr "a.pdf", jsStr "t", 1⟩],
         [⟨jsStr "m1", .assistant, jsStr "ans", some [⟨jsStr "a.pdf", jsStr "1.2", some 2⟩], 7⟩]⟩).docStore =
      [] ∧
    handleCitationClick ⟨jsStr "a.pdf", jsStr "1.2", some 2⟩ [] =
      .notFound (jsStr "Standard \"" ++ jsStr "a.pdf" ++
        jsStr "\" not found in your local library.") :=
  ⟨(C10_delete_frame (jsStr "d1") _).1, by decide,
   (C10_delete_frame (jsStr "d1")
      ⟨[⟨jsStr "d1", jsStr "a.pdf", jsStr "t", 1⟩],
       [⟨jsStr "m1", .assistant, jsStr "ans", some [⟨jsStr "a.pdf", jsStr "1.2", some 2⟩], 7⟩]⟩).2.2.2
      ⟨jsStr "a.pdf", jsStr "1.2", some 2⟩ [] (by decide)⟩

/-- **C9 witness**: with the single stored document `"a.pdf"`, the citation
`"a"` with page 5 opens the viewer at page 5, and with page −2 at page 1. -/
theorem C9_witness :
    handleCitationClick ⟨jsStr "a", jsStr "3.1", some 5⟩
        [⟨jsStr "id1", jsStr "a.pdf", jsStr "t", 10⟩] =
      .openClause (jsStr "a.pdf") (jsStr "3.1") 5 ∧
    handleCitationClick ⟨jsStr "a", jsStr "3.1", some (-2)⟩
        [⟨jsStr "id1", jsStr "a.pdf", jsStr "t", 10⟩] =
      .openClause (jsStr "a.pdf") (jsStr "3.1") 1 :=
  ⟨(C9_page_defaulting _ _ ⟨jsStr "id1", jsStr "a.pdf", jsStr "t", 10⟩ (by decide)).2
      5 rfl (by decide),
   (C9_page_defaulting _ _ ⟨jsStr "id1", jsStr "a.pdf", jsStr "t", 10⟩ (by decide)).1
      (Or.inr ⟨-2, rfl, by decide⟩)⟩

/-! ## C3: render cancellation is last-request-wins and not an error -/

/-- `renderStep` on an invalid index is a no-op. -/
theorem renderStep_none (cfg : RenderConfig) (i : Nat)
    (hti : cfg.threads[i]? = none) : renderStep cfg i = cfg := by
  simp only [renderStep, hti]

/-- `renderStep` on a returned invocation is a no-op. -/
theorem renderStep_done (cfg : RenderConfig) (i : Nat)
    (hti : cfg.threads[i]? = some none) : renderStep cfg i = cfg := by
  simp only [renderStep, hti]

/-- The `start` segment: cancel the current task, then suspend on `getPage`. -/
theorem renderStep_start (cfg : RenderConfig) (i : Nat) (θ : RenderThread)
    (hti : cfg.threads[i]? = some (some θ)) (hpc : θ.pc = .start) :
    renderStep cfg i =
      { cfg with
        cancelled := match cfg.currentTask with
          | some u => u :: cfg.cancelled
          | none => cfg.cancelled,
        threads := cfg.threads.set i (some { θ with pc := .afterGetPage }) } := by
  simp only [renderStep, hti, hpc]

/-- The post-`getPage` segment: size (and thereby clear) the canvas, register
and start a fresh render task, then suspend on its promise. -/
theorem renderStep_getPage (cfg : RenderConfig) (i : Nat) (θ : RenderThread)
    (hti : cfg.threads[i]? = some (some θ)) (hpc : θ.pc = .afterGetPage) :
    renderStep cfg i =
      { cfg with
        surface := none,
        currentTask := some cfg.nextId,
        nextId := cfg.nextId + 1,
        threads := cfg.threads.set i (some { θ with pc := .afterRender cfg.nextId }) } := by
  simp only [renderStep, hti, hpc]

/-- Settling a cancelled task: the `RenderingCancelledException` handler
returns without touching the surface or the error state. -/
theorem renderStep_cancelled (cfg : RenderConfig) (i : Nat) (θ : RenderThread) (tid : Nat)
    (hti : cfg.threads[i]? = some (some θ)) (hpc : θ.pc = .afterRender tid)
    (hmem : tid ∈ cfg.cancelled) :
    renderStep cfg i = { cfg with threads := cfg.threads.set i none } := by
  simp only [renderStep, hti, hpc]
  rw [if_pos hmem]

/-- Settling an uncancelled failing task: the error is set. -/
theorem renderStep_fails (cfg : RenderConfig) (i : Nat) (θ : RenderThread) (tid : Nat)
    (hti : cfg.threads[i]? = some (some θ)) (hpc : θ.pc = .afterRender tid)
    (hmem : tid ∉ cfg.cancelled) (hf : θ.renderFails = true) :
    renderStep cfg i =
      { cfg with
        errorMsg := some (jsStr "Failed to render page " ++ intToStr θ.page ++ jsStr "."),
        threads := cfg.threads.set i none } := by
  simp only [renderStep, hti, hpc]
  rw [if_neg hmem, if_pos hf]

/-- Settling an uncancelled successful task: its page is painted. -/
theorem renderStep_paint (cfg : RenderConfig) (i : Nat) (θ : RenderThread) (tid : Nat)
    (hti : cfg.threads[i]? = some (some θ)) (hpc : θ.pc = .afterRender tid)
    (hmem : tid ∉ cfg.cancelled) (hf : θ.renderFails = false) :
    renderStep cfg i =
      { cfg with
        surface := some (tid, θ.page),
        threads := cfg.threads.set i none } := by
  simp only [renderStep, hti, hpc]
  rw [if_neg hmem, if_neg (by rw [hf]; exact Bool.false_ne_true)]

/-- An invocation slot that is live gives an in-bounds index. -/
theorem renderThread_lt_length (cfg : RenderConfig) (i : Nat) (t : Option RenderThread)
    (hti : cfg.threads[i]? = some t) : i < cfg.threads.length := by
  by_contra hge
  rw [List.getElem?_eq_none (Nat.le_of_not_lt hge)] at hti
  exact Option.noConfusion hti

/-- One step preserves `surfaceInv`. -/
theorem renderStep_surfaceInv (cfg : RenderConfig) (i : Nat)
    (h : surfaceInv cfg) : surfaceInv (renderStep cfg i) := by
  rcases hti : cfg.threads[i]? with _ | t
  · rw [renderStep_none cfg i hti]; exact h
  rcases t with _ | θ
  · rw [renderStep_done cfg i hti]; exact h
  have hlen : i < cfg.threads.length := renderThread_lt_length cfg i _ hti
  cases hpc : θ.pc with
  | start =>
      rw [renderStep_start cfg i θ hti hpc]
      intro tid p hsurf hcan
      exact ⟨i, { θ with pc := .afterGetPage }, List.getElem?_set_self hlen, rfl⟩
  | afterGetPage =>
      rw [renderStep_getPage cfg i θ hti hpc]
      intro tid p hsurf hcan
      exact Option.noConfusion hsurf
  | afterRender tid' =>
      by_cases hmem : tid' ∈ cfg.cancelled
      · rw [renderStep_cancelled cfg i θ tid' hti hpc hmem]
        intro tid p hsurf hcan
        obtain ⟨j, θ', hj, hpc'⟩ := h tid p hsurf hcan
        have hne : i ≠ j := by
          intro heq
          rw [← heq, hti] at hj
          injection hj with h1
          injection h1 with h2
          rw [← h2, hpc] at hpc'
          exact RenderPc.noConfusion hpc'
        refine ⟨j, θ', ?_, hpc'⟩
        rw [List.getElem?_set_ne hne]
        exact hj
      · by_cases hf : θ.renderFails = true
        · rw [renderStep_fails cfg i θ tid' hti hpc hmem hf]
          intro tid p hsurf hcan
          obtain ⟨j, θ', hj, hpc'⟩ := h tid p hsurf hcan
          have hne : i ≠ j := by
            intro heq
            rw [← heq, hti] at hj
            injection hj with h1
            injection h1 with h2
            rw [← h2, hpc] at hpc'
            exact RenderPc.noConfusion hpc'
          refine ⟨j, θ', ?_, hpc'⟩
          rw [List.getElem?_set_ne hne]
          exact hj
        · have hf' : θ.renderFails = false := by
            revert hf
            cases θ.renderFails <;> simp
          rw [renderStep_paint cfg i θ tid' hti hpc hmem hf']
          intro tid p hsurf hcan
          obtain ⟨rfl, -⟩ : tid' = tid ∧ θ.page = p := by
            have hsurf' : some (tid', θ.page) = some (tid, p) := hsurf
            injection hsurf' with hpair
            exact ⟨congrArg Prod.fst hpair, congrArg Prod.snd hpair⟩
          exact absurd hcan hmem

/-- One step preserves `noFailInv`. -/
theorem renderStep_noFailInv (cfg : RenderConfig) (i : Nat)
    (h : noFailInv cfg) : noFailInv (renderStep cfg i) := by
  obtain ⟨hthreads, herr⟩ := h
  rcases hti : cfg.threads[i]? with _ | t
  · rw [renderStep_none cfg i hti]; exact ⟨hthreads, herr⟩
  rcases t with _ | θ
  · rw [renderStep_done cfg i hti]; exact ⟨hthreads, herr⟩
  have hlen : i < cfg.threads.length := renderThread_lt_length cfg i _ hti
  have hsetSome : ∀ (pc' : RenderPc) (j : Nat) (θ' : RenderThread),
      (cfg.threads.set i (some { θ with pc := pc' }))[j]? = some (some θ') →
      θ'.renderFails = false := by
    intro pc' j θ' hj
    by_cases hij : i = j
    · rw [← hij, List.getElem?_set_self hlen] at hj
      injection hj with h1
      injection h1 with h2
      rw [← h2]
      exact hthreads i θ hti
    · rw [List.getElem?_set_ne hij] at hj
      exact hthreads j θ' hj
  have hsetNone : ∀ (j : Nat) (θ' : RenderThread),
      (cfg.threads.set i none)[j]? = some (some θ') → θ'.renderFails = false := by
    intro j θ' hj
    by_cases hij : i = j
    · rw [← hij, List.getElem?_set_self hlen] at hj
      injection hj with h1
      exact Option.noConfusion h1
    · rw [List.getElem?_set_ne hij] at hj
      exact hthreads j θ' hj
  cases hpc : θ.pc with
  | start =>
      rw [renderStep_start cfg i θ hti hpc]
      exact ⟨hsetSome _, herr⟩
  | afterGetPage =>
      rw [renderStep_getPage cfg i θ hti hpc]
      exact ⟨hsetSome _, herr⟩
  | afterRender tid =>
      by_cases hmem : tid ∈ cfg.cancelled
      · rw [renderStep_cancelled cfg i θ tid hti hpc hmem]
        exact ⟨hsetNone, herr⟩
      · have hf : θ.renderFails = false := hthreads i θ hti
        rw [renderStep_paint cfg i θ tid hti hpc hmem hf]
        exact ⟨hsetNone, herr⟩

/-- A whole schedule preserves `surfaceInv`. -/
theorem renderRun_surfaceInv (sched : List Nat) :
    ∀ cfg : RenderConfig, surfaceInv cfg → surfaceInv (renderRun cfg sched) := by
  induction sched with
  | nil => intro cfg h; exact h
  | cons i is ih =>
      intro cfg h
      exact ih (renderStep cfg i) (renderStep_surfaceInv cfg i h)

/-- A whole schedule preserves `noFailInv`. -/
theorem renderRun_noFailInv (sched : List Nat) :
    ∀ cfg : RenderConfig, noFailInv cfg → noFailInv (renderRun cfg sched) := by
  induction sched with
  | nil => intro cfg h; exact h
  | cons i is ih =>
      intro cfg h
      exact ih (renderStep cfg i) (renderStep_noFailInv cfg i h)

/-- The initial configuration satisfies `surfaceInv` (blank surface). -/
theorem initRenderConfig_surfaceInv (reqs : List (Int × Bool)) :
    surfaceInv (initRenderConfig reqs) := by
  intro tid p hsurf hcan
  exact Option.noConfusion hsurf

/-- With no genuinely failing request, the initial configuration satisfies
`noFailInv`. -/
theorem initRenderConfig_noFailInv (reqs : List (Int × Bool))
    (hreqs : ∀ r ∈ reqs, r.2 = false) : noFailInv (initRenderConfig reqs) := by
  refine ⟨?_, rfl⟩
  intro j θ hj
  have hj' : (reqs.map (fun r => (some ⟨r.1, r.2, .start⟩ : Option RenderThread)))[j]? =
      some (some θ) := hj
  rw [List.getElem?_map] at hj'
  rcases hr : reqs[j]? with _ | r
  · rw [hr] at hj'
    exact Option.noConfusion hj'
  · rw [hr] at hj'
    injection hj' with h1
    injection h1 with h2
    rw [← h2]
    exact hreqs r (List.getElem?_mem hr)

/-- **C3.**  In every interleaving of a batch of `renderPage` invocations that
runs to completion, the surface never ends up showing a cancelled request's
render — the painted task is never one that was cancelled (last-request-wins
via explicit cancellation) — and cancellation is never treated as a render
error: if no request genuinely fails, the error state stays empty no matter
how many renders were cancelled. -/
theorem C3_render_cancellation (reqs : List (Int × Bool)) (sched : List Nat)
    (hdone : ∀ t ∈ (renderRun (initRenderConfig reqs) sched).threads, t = none) :
    (∀ tid p, (renderRun (initRenderConfig reqs) sched).surface = some (tid, p) →
        tid ∉ (renderRun (initRenderConfig reqs) sched).cancelled) ∧
    ((∀ r ∈ reqs, r.2 = false) →
      (renderRun (initRenderConfig reqs) sched).errorMsg = none) := by
  constructor
  · intro tid p hsurf hcan
    obtain ⟨j, θ, hj, -⟩ :=
      renderRun_surfaceInv sched (initRenderConfig reqs)
        (initRenderConfig_surfaceInv reqs) tid p hsurf hcan
    have hmem := hdone (some θ) (List.getElem?_mem hj)
    exact Option.noConfusion hmem
  · intro hreqs
    exact (renderRun_noFailInv sched (initRenderConfig reqs)
      (initRenderConfig_noFailInv reqs hreqs)).2

/-- **C3 witness**: requests for page 1 then page 2; the schedule lets the
first request reach its render task, the second request then cancels it and
completes, and the cancelled first request settles last.  The surface shows
the second (uncancelled) task's page 2, the painted task is not cancelled,
and no error was set. -/
theorem C3_witness :
    (renderRun (initRenderConfig [((1 : Int), false), ((2 : Int), false)])
        [0, 0, 1, 1, 1, 0]).surface = some (1, 2) ∧
    (0 : Nat) ∈ (renderRun (initRenderConfig [((1 : Int), false), ((2 : Int), false)])
        [0, 0, 1, 1, 1, 0]).cancelled ∧
    (1 : Nat) ∉ (renderRun (initRenderConfig [((1 : Int), false), ((2 : Int), false)])
        [0, 0, 1, 1, 1, 0]).cancelled ∧
    (renderRun (initRenderConfig [((1 : Int), false), ((2 : Int), false)])
        [0, 0, 1, 1, 1, 0]).errorMsg = none :=
  ⟨by decide, by decide,
   (C3_render_cancellation [((1 : Int), false), ((2 : Int), false)] [0, 0, 1, 1, 1, 0]
      (by decide)).1 1 2 (by decide),
   (C3_render_cancellation [((1 : Int), false), ((2 : Int), false)] [0, 0, 1, 1, 1, 0]
      (by decide)).2 (by decide)⟩

end RailStandardAI
